import Mathlib

/-!
Shallow embedding of the Markdown editor's toolbar text-mutation engine
(`src/App.tsx`).  Documents are sequences of characters (`List Char`),
selections are pairs of character offsets, and every source function is
translated into a pure Lean function.
-/

namespace MarkdownEditor

/-- Character class of the JavaScript regex class `\s` (WhiteSpace and
LineTerminator code points). -/
def isJsWs (c : Char) : Bool :=
  c == ' ' || c == '\t' || c == '\n' || c == '\x0b' || c == '\x0c' || c == '\r' ||
  c == '\u00A0' || c == '\u1680' || c == '\u2000' || c == '\u2001' || c == '\u2002' ||
  c == '\u2003' || c == '\u2004' || c == '\u2005' || c == '\u2006' || c == '\u2007' ||
  c == '\u2008' || c == '\u2009' || c == '\u200A' || c == '\u2028' || c == '\u2029' ||
  c == '\u202F' || c == '\u205F' || c == '\u3000' || c == '\uFEFF'

/-- JavaScript `value.split(sep)` for a single-character separator:
`"".split` gives `[""]`, a trailing separator gives a trailing `""`. -/
def jsSplit (sep : Char) : List Char → List (List Char)
  | [] => [[]]
  | c :: cs =>
    if c = sep then [] :: jsSplit sep cs
    else
      match jsSplit sep cs with
      | [] => [[c]]
      | l :: ls => (c :: l) :: ls

/-- JavaScript `array.join(sep)` for a single-character separator. -/
def joinLines (sep : Char) : List (List Char) → List Char
  | [] => []
  | [l] => l
  | l :: ls => l ++ sep :: joinLines sep ls

/-- The character of a decimal digit (only ever applied to `d < 10`). -/
def digitChar : Nat → Char
  | 0 => '0'
  | 1 => '1'
  | 2 => '2'
  | 3 => '3'
  | 4 => '4'
  | 5 => '5'
  | 6 => '6'
  | 7 => '7'
  | 8 => '8'
  | _ => '9'

/-- Decimal digit characters of a natural number, with explicit fuel so the
definition is structural (the fuel `n + 1` always suffices).  This is the
string JavaScript produces for a non-negative integer in a template literal. -/
def natToCharsAux : Nat → Nat → List Char
  | 0, _ => []
  | fuel + 1, n =>
    if n < 10 then [digitChar n]
    else natToCharsAux fuel (n / 10) ++ [digitChar (n % 10)]

/-- Decimal representation of a natural number as characters. -/
def natToChars (n : Nat) : List Char := natToCharsAux (n + 1) n

/-- Numeric value of a list of decimal digit characters, as JavaScript's
`parseInt(s, 10)` computes it on a string of digits. -/
def digitsToNat (ds : List Char) : Nat :=
  ds.foldl (fun acc c => 10 * acc + (c.toNat - 48)) 0

/-- Match of the leading regex `/^\s*-\s+/` against a line: `some k` gives the
match length `k`, `none` means no match.  Because `\s`, `-` and the digit
class are disjoint, greedy scanning is exactly the regex semantics. -/
def ulMatch (l : List Char) : Option Nat :=
  let ws := l.takeWhile isJsWs
  match l.drop ws.length with
  | '-' :: r =>
    let ws2 := r.takeWhile isJsWs
    if ws2.length = 0 then none else some (ws.length + 1 + ws2.length)
  | _ => none

/-- Match of the leading regex `/^\s*(\d+)\.\s+/` against a line: `some (k, n)`
gives the match length `k` and the numeric value `n` of the captured digits. -/
def olMatch (l : List Char) : Option (Nat × Nat) :=
  let ws := l.takeWhile isJsWs
  let r1 := l.drop ws.length
  let digits := r1.takeWhile (fun c => c.isDigit)
  if digits.length = 0 then none
  else
    match r1.drop digits.length with
    | '.' :: r2 =>
      let ws2 := r2.takeWhile isJsWs
      if ws2.length = 0 then none
      else some (ws.length + digits.length + 1 + ws2.length, digitsToNat digits)
    | _ => none

/-- Test of the leading regex `/^\s*1\.\s+/` against a line. -/
def ol1Match (l : List Char) : Bool :=
  match l.drop (l.takeWhile isJsWs).length with
  | '1' :: '.' :: c :: _ => isJsWs c
  | _ => false

/-- The four line-level toolbar actions of `modifySelectedLines`. -/
inductive LineAction
  | heading
  | ul
  | ol
  | blockquote
deriving DecidableEq

/-- Per-line rewrite rule of `modifySelectedLines` (the body of the `map`):
returns the modified line and the `prefixLengthChange` recorded for it. -/
def lineTransform : LineAction → List Char → List Char × Int
  | .heading, l =>
    if ("### ".toList).isPrefixOf l then (l.drop 4, -4)
    else if ("## ".toList).isPrefixOf l then ("### ".toList ++ l.drop 3, 1)
    else if ("# ".toList).isPrefixOf l then ("## ".toList ++ l.drop 2, 1)
    else ("# ".toList ++ l, 2)
  | .ul, l =>
    match ulMatch l with
    | some k => (l.drop k, -(k : Int))
    | none => ("- ".toList ++ l, 2)
  | .ol, l =>
    match olMatch l with
    | some (k, _) => (l.drop k, -(k : Int))
    | none => ("1. ".toList ++ l, 3)
  | .blockquote, l =>
    if ("> ".toList).isPrefixOf l then (l.drop 2, -2)
    else ("> ".toList ++ l, 2)

/-- Position after `line.indexOf('.') + 2`, as used by the renumbering pass
(`substring(indexOf('.') + 2)`; JavaScript `indexOf` yields `-1` when the
character is absent, so the substring then starts at index `1`). -/
def jsContentStart (l : List Char) : Nat :=
  match l.findIdx? (fun c => c = '.') with
  | some k => k + 2
  | none => 1

/-- Rewrite of a list item performed by the renumbering pass:
`` `${n}. ${lineContent}` `` with `lineContent = line.substring(line.indexOf('.') + 2)`. -/
def renumberLine (n : Nat) (l : List Char) : List Char :=
  natToChars n ++ '.' :: ' ' :: l.drop (jsContentStart l)

/-- The scanning loop at the start of `modifySelectedLines`: walks the lines
accumulating `currentLineStart`, recording `startLineIndex` / `endLineIndex`
(`none` models the JavaScript sentinel `-1`) and stopping early once both are
found.  `i` is the index of the first line of `rest`, `cLS` its character
offset. -/
def mapLinesLoop (selStart selEnd : Nat) :
    List (List Char) → Nat → Nat → Option Nat × Option Nat → Option Nat × Option Nat
  | [], _, _, st => st
  | l :: rest, i, cLS, (sIdx, eIdx) =>
    let lineLength := l.length + 1
    let sIdx' := if selStart ≥ cLS ∧ selStart < cLS + lineLength then some i else sIdx
    let eIdx1 := if selEnd > cLS ∧ selEnd ≤ cLS + lineLength then some i else eIdx
    let eIdx' := if selEnd = cLS ∧ selEnd > 0 then some (i - 1) else eIdx1
    if sIdx'.isSome ∧ eIdx'.isSome then (sIdx', eIdx')
    else mapLinesLoop selStart selEnd rest (i + 1) (cLS + lineLength) (sIdx', eIdx')

/-- The selection-to-lines mapping computed at the start of
`modifySelectedLines`: the scanning loop followed by the two fallback
branches for unset indices. -/
def mapSelectionToLines (value : List Char) (selStart selEnd : Nat) : Nat × Nat :=
  let lines := jsSplit '\n' value
  let (sIdx, eIdx) := mapLinesLoop selStart selEnd lines 0 0 (none, none)
  let startLineIndex :=
    match sIdx with
    | some k => k
    | none => if selStart = value.length ∧ lines.length > 0 then lines.length - 1 else 0
  let endLineIndex :=
    match eIdx with
    | some k => k
    | none => if selEnd = value.length ∧ lines.length > 0 then lines.length - 1 else startLineIndex
  (startLineIndex, endLineIndex)

/-- The `lines.map((line, index) => ...)` pass of `modifySelectedLines`: lines
whose index lies in `[sLi, eLi]` are rewritten by the per-line rule, the rest
are kept.  `i` is the index of the first line of the argument list. -/
def mapLinesStep2 (action : LineAction) (sLi eLi : Nat) : Nat → List (List Char) → List (List Char)
  | _, [] => []
  | i, l :: ls =>
    (if sLi ≤ i ∧ i ≤ eLi then (lineTransform action l).1 else l) ::
      mapLinesStep2 action sLi eLi (i + 1) ls

/-- The ordered-list renumbering loop of `modifySelectedLines`, a direct
translation of the `for` loop over `modifiedLines`: `i` is the index of the
first remaining line, `n` is `currentOlNumber` and `inOl` is
`inOlBlockStartedBySelection`. -/
def renumberLoop (sLi eLi : Nat) (wasOl : Bool) :
    Nat → Nat → Bool → List (List Char) → List (List Char)
  | _, _, _, [] => []
  | i, n, inOl, l :: rest =>
    let isNowOl := ol1Match l && !wasOl && (decide (sLi ≤ i) && decide (i ≤ eLi))
    let existing := olMatch l
    if sLi ≤ i ∧ i ≤ eLi then
      if isNowOl then
        let n1 := if inOl then n else 1
        renumberLine n1 l :: renumberLoop sLi eLi wasOl (i + 1) (n1 + 1) true rest
      else if existing.isNone then
        l :: renumberLoop sLi eLi wasOl (i + 1) n false rest
      else if inOl then
        renumberLine n l :: renumberLoop sLi eLi wasOl (i + 1) (n + 1) true rest
      else
        l :: renumberLoop sLi eLi wasOl (i + 1) ((existing.getD (0, 0)).2 + 1) true rest
    else
      if inOl && existing.isSome then
        renumberLine n l :: renumberLoop sLi eLi wasOl (i + 1) (n + 1) true rest
      else if existing.isSome then
        l :: renumberLoop sLi eLi wasOl (i + 1) n false rest
      else
        l :: renumberLoop sLi eLi wasOl (i + 1) n false rest

/-- The `selectionLinesWereOl` flag: whether every line originally in
`[sLi, eLi]` already matched the ordered-list pattern. -/
def selectionLinesWereOl (lines : List (List Char)) (sLi eLi : Nat) : Bool :=
  (List.range' sLi (eLi + 1 - sLi)).all fun i => (olMatch (lines.getD i [])).isSome

/-- `modifySelectedLines` from `src/App.tsx`: maps the selection to a line
range, rewrites the lines in the range, renumbers ordered lists, joins the
lines back and computes the new selection.  Returns
`(newMarkdown, newSelectionStart, newSelectionEnd)`. -/
def modifySelectedLines (value : List Char) (selStart selEnd : Nat) (action : LineAction) :
    List Char × Int × Int :=
  let lines := jsSplit '\n' value
  let p := mapSelectionToLines value selStart selEnd
  let sLi := p.1
  let eLi := p.2
  -- `firstModifiedLinePrefixLengthChange` stays 0 unless the map's branch runs
  -- at index `sLi`, which happens exactly when `sLi ≤ eLi` and `sLi` is a
  -- valid index.
  let firstDelta : Int :=
    if sLi ≤ eLi ∧ sLi < lines.length then (lineTransform action (lines.getD sLi [])).2 else 0
  let modified0 := mapLinesStep2 action sLi eLi 0 lines
  let modified :=
    if action = .ol then
      renumberLoop sLi eLi (selectionLinesWereOl lines sLi eLi) 0 1 false modified0
    else modified0
  let newMarkdown := joinLines '\n' modified
  let newCursorPos : Int := max 0 ((selStart : Int) + firstDelta)
  let totalLengthChangeInSelection : Int :=
    ((List.range' sLi (eLi + 1 - sLi)).map fun i =>
      ((modified.getD i []).length : Int) - ((lines.getD i []).length : Int)).sum
  (newMarkdown, newCursorPos, max newCursorPos ((selEnd : Int) + totalLengthChangeInSelection))

/-- JavaScript `value.substring(s, e)` (swaps its arguments when `s > e` and
clamps them to the string length). -/
def jsSubstring (v : List Char) (s e : Nat) : List Char :=
  (v.drop (min s e)).take (max s e - min s e)

/-- `insertTextAroundSelection` from `src/App.tsx`: wraps a non-empty
selection in `pre`/`suf`, or inserts `pre ++ dflt ++ suf` at a caret.
Returns `(newText, newSelStart, newSelEnd)`. -/
def insertTextAroundSelection (value : List Char) (selStart selEnd : Nat)
    (pre suf dflt : List Char) : List Char × Nat × Nat :=
  let selectedText := jsSubstring value selStart selEnd
  if selectedText ≠ [] then
    (jsSubstring value 0 selStart ++ pre ++ selectedText ++ suf ++ value.drop selEnd,
     selStart + pre.length, selStart + pre.length + selectedText.length)
  else
    (jsSubstring value 0 selStart ++ pre ++ dflt ++ suf ++ value.drop selEnd,
     selStart + pre.length, selStart + pre.length + dflt.length)

/-- The built-in sample document `defaultInitialMarkdownLeft` (the template
literal at the top of `src/App.tsx`). -/
def defaultInitialMarkdownLeft : List Char :=
  ("\n# Welcome to the Markdown Editor!\n\n## Type your Markdown on the left...\n### ...and see the document preview on the right!\n\n---\n\n**Features:**\n\n*   Markdown Editor with Toolbar\n*   Live Document Preview with Syntax Highlighting\n*   Styled with **Tailwind CSS**\n*   Responsive design\n\n---\n\n**Examples:**\n\nAn unordered list:\n*   Item 1\n*   Item 2\n    *   Sub-item A\n    *   Sub-item B\n\nA link: [Learn Markdown](https://www.markdownguide.org/)\n\nAn image: ![Placeholder](https://via.placeholder.com/150/CBD5E1/475569?text=Image)\n\nA code block:\n```javascript\nfunction greet(name) \x7b\n  // This is a comment\n  return \x27Hello, \x27 + name + \x27!\x27;\n\x7d\nconsole.log(greet(\x27World\x27));\n```\n\nAnother code block (Python):\n```python\ndef Power(base, exp):\n    if (exp == 0):\n        return 1\n    return (base * Power(base, exp - 1))\n\n# Driver Code\nbase = 5\nexp = 3\nprint(\"Result:\", Power(base, exp))\n```\n").toList

/-- `getMarkdownFromURL` from `src/App.tsx`.  The `md` query parameter is
`none` when absent; `decodeURIComponentResult` is the outcome of the external
`decodeURIComponent` call (`none` models a raised `URIError`).  The JavaScript
truthiness test `if (mdFromQuery)` is false for the empty string, hence the
explicit emptiness check. -/
def getMarkdownFromURL (mdFromQuery : Option (List Char))
    (decodeURIComponentResult : List Char → Option (List Char)) : List Char :=
  match mdFromQuery with
  | some q =>
    if q ≠ [] then
      match decodeURIComponentResult q with
      | some t => t
      | none => defaultInitialMarkdownLeft
    else defaultInitialMarkdownLeft
  | none => defaultInitialMarkdownLeft

/-- Outcome of the `FileReader` in `handleFileSelected`: `ok` is a load event
whose result is a string, `nonString` a load event with a non-string result,
`failed` an error event. -/
inductive FileReadOutcome
  | ok (text : List Char)
  | nonString
  | failed

/-- The rejection message of `handleFileSelected`. -/
def invalidFileTypeFeedback : List Char :=
  ("Invalid file type. Please select a .md file.").toList

/-- `handleFileSelected` from `src/App.tsx`, as a function from the file's
name, declared content type and read outcome, plus the current editor
markdown, to the resulting `(markdown, feedback)` pair. -/
def handleFileSelected (name contentType : List Char) (read : FileReadOutcome)
    (markdown : List Char) : List Char × List Char :=
  if ¬ ((".md").toList.isSuffixOf name) ∧ ¬ ((".markdown").toList.isSuffixOf name) ∧
      contentType ≠ ("text/markdown").toList then
    (markdown, invalidFileTypeFeedback)
  else
    match read with
    | .ok text => (text, ("File loaded successfully!").toList)
    | .nonString => (markdown, ("Failed to read file content.").toList)
    | .failed => (markdown, ("Error reading file.").toList)

/-- Character offset of the start of line `k` in a document whose lines are
`L` (each line's span being its length plus one for the delimiter). -/
def charStart (L : List (List Char)) (k : Nat) : Nat :=
  ((L.take k).map (fun l => l.length + 1)).sum

/-- Lines numbered `n`, `n+1`, ... with fresh ordered-list markers. -/
def numberedFrom (n : Nat) : List (List Char) → List (List Char)
  | [] => []
  | m :: ms => (natToChars n ++ '.' :: ' ' :: m) :: numberedFrom (n + 1) ms

/-- Existing list items renumbered `n`, `n+1`, ... by the renumbering pass. -/
def renumberedFrom (n : Nat) : List (List Char) → List (List Char)
  | [] => []
  | r :: rs => renumberLine n r :: renumberedFrom (n + 1) rs

/-! ### Claim C1 -/

/-- C1: the claimed invariant `startLineIndex ≤ endLineIndex` of the
selection-to-lines mapping fails for a caret placed at the first character of
a non-first line: on document `"a\nb"` with the in-bounds caret `(2, 2)` the
loop first records `endLineIndex = 0` (end of line 0), then at line 1 sets
`startLineIndex = 1` and overwrites `endLineIndex` with `i - 1 = 0`, so the
mapping returns `(1, 0)` with `endLineIndex < startLineIndex` (and the whole
toolbar action becomes a no-op). -/
theorem mapSelectionToLines_caret_start_bug :
    mapSelectionToLines ("a\nb".toList) 2 2 = (1, 0) ∧
    2 ≤ ("a\nb".toList).length := by decide

/-! ### Claim C4 -/

/-- C4: for a plain line (matching none of the heading markers), four
successive applications of the heading rule pass through
`"# " ++ l`, `"## " ++ l`, `"### " ++ l` and return the original line. -/
theorem heading_four_cycle (l : List Char)
    (h1 : ¬ (['#', ' '] <+: l)) (h2 : ¬ (['#', '#', ' '] <+: l))
    (h3 : ¬ (['#', '#', '#', ' '] <+: l)) :
    (lineTransform LineAction.heading l).1 = '#' :: ' ' :: l ∧
    (lineTransform LineAction.heading ('#' :: ' ' :: l)).1 = '#' :: '#' :: ' ' :: l ∧
    (lineTransform LineAction.heading ('#' :: '#' :: ' ' :: l)).1 =
      '#' :: '#' :: '#' :: ' ' :: l ∧
    (lineTransform LineAction.heading ('#' :: '#' :: '#' :: ' ' :: l)).1 = l := by
  refine ⟨?_, ?_, ?_, ?_⟩ <;> simp [lineTransform, List.isPrefixOf, h1, h2, h3]

/-- Witness for C4 at the concrete plain line `"x"`. -/
theorem heading_four_cycle_witness :
    (¬ (['#', ' '] <+: "x".toList) ∧ ¬ (['#', '#', ' '] <+: "x".toList) ∧
     ¬ (['#', '#', '#', ' '] <+: "x".toList)) ∧
    ((lineTransform LineAction.heading ("x".toList)).1 = '#' :: ' ' :: "x".toList ∧
     (lineTransform LineAction.heading ('#' :: ' ' :: "x".toList)).1 =
       '#' :: '#' :: ' ' :: "x".toList ∧
     (lineTransform LineAction.heading ('#' :: '#' :: ' ' :: "x".toList)).1 =
       '#' :: '#' :: '#' :: ' ' :: "x".toList ∧
     (lineTransform LineAction.heading ('#' :: '#' :: '#' :: ' ' :: "x".toList)).1 =
       "x".toList) :=
  ⟨⟨by decide, by decide, by decide⟩,
   heading_four_cycle ("x".toList) (by decide) (by decide) (by decide)⟩

/-! ### Claim C7 -/

/-- C7 counterexample: the plain line `" x"` (no match of the leading
unordered-list pattern) is not returned unchanged by two applications of the
unordered-list rule: the second application strips the match `"-  "`, which
swallows the line's original leading whitespace, yielding `"x"`. -/
theorem ul_double_counterexample :
    ulMatch (" x".toList) = none ∧
    (lineTransform LineAction.ul ((lineTransform LineAction.ul (" x".toList)).1)).1 =
      "x".toList ∧
    ("x".toList : List Char) ≠ " x".toList := by decide

/-- C7 (amended): for a plain line, the first application prepends `"- "`
(delta `+2`); the second strips the leading match, whose whitespace tail also
covers the line's own leading whitespace, so the result is the original line
with its leading whitespace removed (delta `-(2 + leading-whitespace length)`).
The round trip restores the line exactly when it has no leading whitespace. -/
theorem ul_double_spec (l : List Char) (h : ulMatch l = none) :
    (lineTransform LineAction.ul l).1 = '-' :: ' ' :: l ∧
    (lineTransform LineAction.ul l).2 = 2 ∧
    (lineTransform LineAction.ul ('-' :: ' ' :: l)).1 =
      l.drop (l.takeWhile isJsWs).length ∧
    (lineTransform LineAction.ul ('-' :: ' ' :: l)).2 =
      -(2 + ((l.takeWhile isJsWs).length : Int)) ∧
    (l.takeWhile isJsWs = [] → (lineTransform LineAction.ul ('-' :: ' ' :: l)).1 = l) := by
  have hm : ulMatch ('-' :: ' ' :: l) = some (2 + (l.takeWhile isJsWs).length) := by
    simp [ulMatch, List.takeWhile_cons, show isJsWs '-' = false from by decide,
          show isJsWs ' ' = true from by decide]
    omega
  have hdrop : ('-' :: ' ' :: l).drop (2 + (l.takeWhile isJsWs).length) =
      l.drop (l.takeWhile isJsWs).length := by
    rw [Nat.add_comm]
    rfl
  refine ⟨by simp [lineTransform, h], by simp [lineTransform, h], ?_, ?_, ?_⟩
  · simp [lineTransform, hm, hdrop]
  · simp [lineTransform, hm]
  · intro hws
    simp [lineTransform, hm, hdrop, hws]

/-- Witness for C7 (amended) at the concrete plain line `"x"`. -/
theorem ul_double_spec_witness :
    (ulMatch ("x".toList) = none) ∧
    ((lineTransform LineAction.ul ("x".toList)).1 = '-' :: ' ' :: "x".toList ∧
     (lineTransform LineAction.ul ("x".toList)).2 = 2 ∧
     (lineTransform LineAction.ul ('-' :: ' ' :: "x".toList)).1 =
       ("x".toList).drop (("x".toList).takeWhile isJsWs).length ∧
     (lineTransform LineAction.ul ('-' :: ' ' :: "x".toList)).2 =
       -(2 + ((("x".toList).takeWhile isJsWs).length : Int)) ∧
     (("x".toList).takeWhile isJsWs = [] →
       (lineTransform LineAction.ul ('-' :: ' ' :: "x".toList)).1 = "x".toList)) :=
  ⟨by decide, ul_double_spec ("x".toList) (by decide)⟩

/-! ### Claim C8 -/

/-- C8 counterexample: the empty parameter value.  `decodeURIComponent("")`
succeeds and returns `""` (modelled by the oracle `fun q => some q`), yet
`getMarkdownFromURL` returns the default document, not the decoded text,
because the JavaScript truthiness test treats `""` as absent. -/
theorem getMarkdownFromURL_empty_param_counterexample :
    getMarkdownFromURL (some ("".toList)) (fun q => some q) = defaultInitialMarkdownLeft ∧
    defaultInitialMarkdownLeft ≠ "".toList := by
  refine ⟨rfl, ?_⟩
  decide

/-- C8 (amended): a failed decode of a non-empty parameter value yields the
default document, an absent parameter yields the default document, a
successful decode of a non-empty value yields the decoded text, and an empty
value (treated as absent by JavaScript truthiness) yields the default. -/
theorem getMarkdownFromURL_spec (q t : List Char)
    (dec : List Char → Option (List Char)) :
    (q ≠ [] → dec q = none →
      getMarkdownFromURL (some q) dec = defaultInitialMarkdownLeft) ∧
    (getMarkdownFromURL none dec = defaultInitialMarkdownLeft) ∧
    (q ≠ [] → dec q = some t → getMarkdownFromURL (some q) dec = t) ∧
    (getMarkdownFromURL (some []) dec = defaultInitialMarkdownLeft) := by
  refine ⟨fun hq hd => ?_, rfl, fun hq hd => ?_, rfl⟩
  · simp [getMarkdownFromURL, hq, hd]
  · simp [getMarkdownFromURL, hq, hd]

/-- Witness for C8 (amended) at the concrete parameter value `"x"`, with a
failing and a succeeding decode oracle. -/
theorem getMarkdownFromURL_spec_witness :
    ("x".toList ≠ ([] : List Char)) ∧
    getMarkdownFromURL (some ("x".toList)) (fun _ => none) = defaultInitialMarkdownLeft ∧
    getMarkdownFromURL none (fun _ => none) = defaultInitialMarkdownLeft ∧
    getMarkdownFromURL (some ("x".toList)) (fun _ => some ("y".toList)) = "y".toList :=
  ⟨by decide,
   (getMarkdownFromURL_spec ("x".toList) ("y".toList) (fun _ => none)).1 (by decide) rfl,
   (getMarkdownFromURL_spec ("x".toList) ("y".toList) (fun _ => none)).2.1,
   (getMarkdownFromURL_spec ("x".toList) ("y".toList)
     (fun _ => some ("y".toList))).2.2.1 (by decide) rfl⟩

/-! ### Claim C9 -/

/-- C9: a file whose name ends with neither `.md` nor `.markdown` and whose
declared content type is not `text/markdown` is rejected with the
invalid-file-type message and leaves the markdown unchanged (for every read
outcome); a file passing the check with a successfully decoded text has that
text replace the markdown.  In particular `notes.txt` with type `text/plain`
is rejected. -/
theorem handleFileSelected_spec (name contentType text markdown : List Char) :
    ((¬ (['.', 'm', 'd'] <:+ name)) →
     (¬ (['.', 'm', 'a', 'r', 'k', 'd', 'o', 'w', 'n'] <:+ name)) →
     contentType ≠ ['t', 'e', 'x', 't', '/', 'm', 'a', 'r', 'k', 'd', 'o', 'w', 'n'] →
     ∀ read, handleFileSelected name contentType read markdown =
       (markdown, invalidFileTypeFeedback)) ∧
    ((['.', 'm', 'd'] <:+ name ∨
      ['.', 'm', 'a', 'r', 'k', 'd', 'o', 'w', 'n'] <:+ name ∨
      contentType = ['t', 'e', 'x', 't', '/', 'm', 'a', 'r', 'k', 'd', 'o', 'w', 'n']) →
     handleFileSelected name contentType (.ok text) markdown =
       (text, ("File loaded successfully!").toList)) ∧
    (∀ read, handleFileSelected ("notes.txt".toList) ("text/plain".toList) read markdown =
      (markdown, invalidFileTypeFeedback)) := by
  have reject : ∀ nm ct, (¬ (['.', 'm', 'd'] <:+ nm)) →
      (¬ (['.', 'm', 'a', 'r', 'k', 'd', 'o', 'w', 'n'] <:+ nm)) →
      ct ≠ ['t', 'e', 'x', 't', '/', 'm', 'a', 'r', 'k', 'd', 'o', 'w', 'n'] →
      ∀ read, handleFileSelected nm ct read markdown = (markdown, invalidFileTypeFeedback) := by
    intro nm ct h1 h2 h3 read
    simp only [handleFileSelected]
    rw [if_pos]
    refine ⟨by simp [h1], by simp [h2], by simp [h3]⟩
  refine ⟨reject name contentType, fun h => ?_, ?_⟩
  · rcases h with h | h | h <;> simp [handleFileSelected, h]
  · exact reject ("notes.txt".toList) ("text/plain".toList) (by decide) (by decide) (by decide)

/-- Witness for C9 at concrete files: `notes.txt` of type `text/plain` is
rejected, `a.md` of type `text/plain` is accepted and its text replaces the
markdown. -/
theorem handleFileSelected_spec_witness :
    (¬ (['.', 'm', 'd'] <:+ "notes.txt".toList) ∧
     ¬ (['.', 'm', 'a', 'r', 'k', 'd', 'o', 'w', 'n'] <:+ "notes.txt".toList) ∧
     ("text/plain".toList : List Char) ≠
       ['t', 'e', 'x', 't', '/', 'm', 'a', 'r', 'k', 'd', 'o', 'w', 'n']) ∧
    handleFileSelected ("notes.txt".toList) ("text/plain".toList) (.ok ("hi".toList))
      ("doc".toList) = ("doc".toList, invalidFileTypeFeedback) ∧
    handleFileSelected ("a.md".toList) ("text/plain".toList) (.ok ("hi".toList))
      ("doc".toList) = ("hi".toList, ("File loaded successfully!").toList) :=
  ⟨⟨by decide, by decide, by decide⟩,
   (handleFileSelected_spec ("notes.txt".toList) ("text/plain".toList) ("hi".toList)
     ("doc".toList)).1 (by decide) (by decide) (by decide) _,
   (handleFileSelected_spec ("a.md".toList) ("text/plain".toList) ("hi".toList)
     ("doc".toList)).2.1 (Or.inl (by decide))⟩

/-! ### Claim C6 -/

/-- `jsSubstring v 0 s` is `v.take s`. -/
theorem jsSubstring_zero (v : List Char) (s : Nat) : jsSubstring v 0 s = v.take s := by
  simp [jsSubstring]

/-- For ordered bounds, `jsSubstring` is drop-then-take. -/
theorem jsSubstring_of_le (v : List Char) (s e : Nat) (h : s ≤ e) :
    jsSubstring v s e = (v.drop s).take (e - s) := by
  simp [jsSubstring, Nat.min_eq_left h, Nat.max_eq_right h]

/-- The substring of an in-bounds ordered selection has length `e - s`. -/
theorem length_jsSubstring_of_le (v : List Char) (s e : Nat) (h : s ≤ e)
    (he : e ≤ v.length) : (jsSubstring v s e).length = e - s := by
  rw [jsSubstring_of_le v s e h, List.length_take, List.length_drop]
  omega

/-- Taking a substring at the exact span of a middle factor recovers it. -/
theorem jsSubstring_append_exact (a sel b : List Char) :
    jsSubstring (a ++ sel ++ b) a.length (a.length + sel.length) = sel := by
  rw [jsSubstring_of_le _ _ _ (Nat.le_add_right _ _), Nat.add_sub_cancel_left,
    List.append_assoc, List.drop_left, List.take_left]

/-- C6: for every in-bounds selection, `insertTextAroundSelection` wraps a
non-empty selection as `before ++ pre ++ selected ++ suf ++ after` with the
new selection spanning exactly the original selected text shifted right by
the length of `pre`; a caret gets `pre ++ dflt ++ suf` inserted with the new
selection spanning exactly the placeholder `dflt`.  In particular, on
`"hello "` with a caret at 6 and `"**"`, `"**"`, `"bold text"`, it yields
`"hello **bold text**"` with the selection covering `"bold text"`. -/
theorem insertTextAroundSelection_spec (v pre suf dflt : List Char) (s e : Nat)
    (hse : s ≤ e) (hev : e ≤ v.length) :
    (s < e →
      (insertTextAroundSelection v s e pre suf dflt).1 =
        v.take s ++ pre ++ jsSubstring v s e ++ suf ++ v.drop e ∧
      (insertTextAroundSelection v s e pre suf dflt).2.1 = s + pre.length ∧
      jsSubstring (insertTextAroundSelection v s e pre suf dflt).1
        (insertTextAroundSelection v s e pre suf dflt).2.1
        (insertTextAroundSelection v s e pre suf dflt).2.2 = jsSubstring v s e) ∧
    (s = e →
      (insertTextAroundSelection v s e pre suf dflt).1 =
        v.take s ++ pre ++ dflt ++ suf ++ v.drop e ∧
      (insertTextAroundSelection v s e pre suf dflt).2.1 = s + pre.length ∧
      jsSubstring (insertTextAroundSelection v s e pre suf dflt).1
        (insertTextAroundSelection v s e pre suf dflt).2.1
        (insertTextAroundSelection v s e pre suf dflt).2.2 = dflt) ∧
    (insertTextAroundSelection ("hello ".toList) 6 6 ("**".toList) ("**".toList)
       ("bold text".toList) = ("hello **bold text**".toList, 8, 17) ∧
     jsSubstring ("hello **bold text**".toList) 8 17 = "bold text".toList) := by
  have hsv : s ≤ v.length := hse.trans hev
  have hlen2 : (v.take s ++ pre).length = s + pre.length := by
    rw [List.length_append, List.length_take, Nat.min_eq_left hsv]
  refine ⟨fun hlt => ?_, fun heq => ?_, by decide, by decide⟩
  · have hne : jsSubstring v s e ≠ [] := by
      intro hnil
      have := length_jsSubstring_of_le v s e hse hev
      rw [hnil] at this
      simp at this
      omega
    have hres : insertTextAroundSelection v s e pre suf dflt =
        (v.take s ++ pre ++ jsSubstring v s e ++ suf ++ v.drop e,
         s + pre.length, s + pre.length + (jsSubstring v s e).length) := by
      simp only [insertTextAroundSelection, if_pos hne, jsSubstring_zero]
    rw [hres]
    refine ⟨rfl, rfl, ?_⟩
    have key := jsSubstring_append_exact (v.take s ++ pre) (jsSubstring v s e)
      (suf ++ v.drop e)
    rw [hlen2] at key
    simpa [List.append_assoc] using key
  · have hnil : jsSubstring v s e = [] := by
      rw [jsSubstring_of_le v s e hse, heq]
      simp
    have hres : insertTextAroundSelection v s e pre suf dflt =
        (v.take s ++ pre ++ dflt ++ suf ++ v.drop e,
         s + pre.length, s + pre.length + dflt.length) := by
      simp only [insertTextAroundSelection, hnil, ne_eq, not_true_eq_false, if_false,
        jsSubstring_zero]
    rw [hres]
    refine ⟨rfl, rfl, ?_⟩
    have key := jsSubstring_append_exact (v.take s ++ pre) dflt (suf ++ v.drop e)
    rw [hlen2] at key
    simpa [List.append_assoc] using key

/-- Witness for C6 at the concrete non-empty selection `"world"` inside
`"hello world"` wrapped with `"*"`. -/
theorem insertTextAroundSelection_spec_witness :
    (6 < 11 ∧ (6 : Nat) ≤ 11 ∧ 11 ≤ ("hello world".toList).length) ∧
    (insertTextAroundSelection ("hello world".toList) 6 11 ("*".toList) ("*".toList)
        ("x".toList)).1 =
      ("hello world".toList).take 6 ++ "*".toList ++
        jsSubstring ("hello world".toList) 6 11 ++ "*".toList ++
        ("hello world".toList).drop 11 ∧
    jsSubstring (insertTextAroundSelection ("hello world".toList) 6 11 ("*".toList)
        ("*".toList) ("x".toList)).1
      (insertTextAroundSelection ("hello world".toList) 6 11 ("*".toList) ("*".toList)
        ("x".toList)).2.1
      (insertTextAroundSelection ("hello world".toList) 6 11 ("*".toList) ("*".toList)
        ("x".toList)).2.2 = jsSubstring ("hello world".toList) 6 11 :=
  ⟨⟨by decide, by decide, by decide⟩,
   ((insertTextAroundSelection_spec ("hello world".toList) ("*".toList) ("*".toList)
      ("x".toList) 6 11 (by decide) (by decide)).1 (by decide)).1,
   ((insertTextAroundSelection_spec ("hello world".toList) ("*".toList) ("*".toList)
      ("x".toList) 6 11 (by decide) (by decide)).1 (by decide)).2.2⟩

/-! ### Split/join infrastructure -/

/-- `jsSplit` never returns an empty list of lines. -/
theorem jsSplit_ne_nil (sep : Char) (v : List Char) : jsSplit sep v ≠ [] := by
  induction v with
  | nil => simp [jsSplit]
  | cons c cs ih =>
    simp only [jsSplit]
    split
    · simp
    · split
      · simp
      · simp

/-- The number of lines is the separator count plus one. -/
theorem length_jsSplit (sep : Char) (v : List Char) :
    (jsSplit sep v).length = v.count sep + 1 := by
  induction v with
  | nil => simp [jsSplit]
  | cons c cs ih =>
    by_cases h : c = sep
    · subst h
      simp [jsSplit, List.count_cons, ih]
    · simp only [jsSplit, if_neg h]
      cases hsplit : jsSplit sep cs with
      | nil => exact absurd hsplit (jsSplit_ne_nil sep cs)
      | cons l ls =>
        rw [hsplit] at ih
        simp only [List.length_cons] at ih ⊢
        rw [List.count_cons, if_neg (by simp [h])]
        omega

/-- Lines produced by `jsSplit` do not contain the separator. -/
theorem not_mem_of_mem_jsSplit (sep : Char) (v l : List Char)
    (h : l ∈ jsSplit sep v) : sep ∉ l := by
  induction v generalizing l with
  | nil =>
    simp [jsSplit] at h
    simp [h]
  | cons c cs ih =>
    by_cases hc : c = sep
    · subst hc
      simp only [jsSplit, if_pos rfl] at h
      rcases List.mem_cons.mp h with h | h
      · simp [h]
      · exact ih l h
    · simp only [jsSplit, if_neg hc] at h
      cases hsplit : jsSplit sep cs with
      | nil => exact absurd hsplit (jsSplit_ne_nil sep cs)
      | cons l' ls =>
        rw [hsplit] at h
        rcases List.mem_cons.mp h with h | h
        · subst h
          intro hmem
          rcases List.mem_cons.mp hmem with h | h
          · exact hc h.symm
          · exact ih l' (hsplit ▸ List.mem_cons_self l' ls) h
        · exact ih l (hsplit ▸ List.mem_cons_of_mem l' h)

/-- Joining the split lines with the separator reproduces the document. -/
theorem joinLines_jsSplit (sep : Char) (v : List Char) :
    joinLines sep (jsSplit sep v) = v := by
  induction v with
  | nil => rfl
  | cons c cs ih =>
    by_cases h : c = sep
    · subst h
      simp only [jsSplit, if_pos rfl]
      cases hsplit : jsSplit c cs with
      | nil => exact absurd hsplit (jsSplit_ne_nil c cs)
      | cons l ls =>
        rw [hsplit] at ih
        simp only [joinLines, List.nil_append]
        rw [ih]
    · simp only [jsSplit, if_neg h]
      cases hsplit : jsSplit sep cs with
      | nil => exact absurd hsplit (jsSplit_ne_nil sep cs)
      | cons l ls =>
        rw [hsplit] at ih
        cases ls with
        | nil =>
          simp only [joinLines] at ih ⊢
          rw [ih]
        | cons x xs =>
          simp only [joinLines] at ih ⊢
          rw [List.cons_append, ih]

/-- Splitting a separator-free line yields just that line. -/
theorem jsSplit_no_sep (sep : Char) (l : List Char) (h : sep ∉ l) :
    jsSplit sep l = [l] := by
  induction l with
  | nil => rfl
  | cons c cs ih =>
    have hc : c ≠ sep := fun hc => h (hc ▸ List.mem_cons_self c cs)
    have hcs : sep ∉ cs := fun hm => h (List.mem_cons_of_mem c hm)
    simp only [jsSplit, if_neg hc, ih hcs]

/-- Splitting past a separator-free head line. -/
theorem jsSplit_append_sep (sep : Char) (a t : List Char) (h : sep ∉ a) :
    jsSplit sep (a ++ sep :: t) = a :: jsSplit sep t := by
  induction a with
  | nil => simp [jsSplit]
  | cons c a' ih =>
    have hc : c ≠ sep := fun hc => h (hc ▸ List.mem_cons_self c a')
    have ha' : sep ∉ a' := fun hm => h (List.mem_cons_of_mem c hm)
    simp only [List.cons_append, jsSplit, if_neg hc, List.append_eq, ih ha']

/-- Splitting a join of separator-free lines recovers the lines. -/
theorem jsSplit_joinLines (sep : Char) (L : List (List Char)) (hne : L ≠ [])
    (h : ∀ l ∈ L, sep ∉ l) : jsSplit sep (joinLines sep L) = L := by
  induction L with
  | nil => exact absurd rfl hne
  | cons l ls ih =>
    cases ls with
    | nil => exact jsSplit_no_sep sep l (h l (List.mem_cons_self l []))
    | cons x xs =>
      have hl : sep ∉ l := h l (List.mem_cons_self l (x :: xs))
      simp only [joinLines]
      rw [jsSplit_append_sep sep l (joinLines sep (x :: xs)) hl,
        ih (by simp) (fun m hm => h m (List.mem_cons_of_mem l hm))]

/-- Separator count of a join of separator-free lines. -/
theorem count_joinLines (sep : Char) (L : List (List Char))
    (h : ∀ l ∈ L, sep ∉ l) : (joinLines sep L).count sep = L.length - 1 := by
  induction L with
  | nil => simp [joinLines]
  | cons l ls ih =>
    have hl : sep ∉ l := h l (List.mem_cons_self l ls)
    cases ls with
    | nil =>
      simp only [joinLines]
      simp [List.count_eq_zero.mpr hl]
    | cons x xs =>
      simp only [joinLines] at ih ⊢
      rw [List.count_append, List.count_cons]
      simp only [List.length_cons] at ih ⊢
      rw [ih (fun m hm => h m (List.mem_cons_of_mem l hm))]
      simp [List.count_eq_zero.mpr hl]

/-! ### Preservation lemmas for the line rewrites -/

/-- Digit characters are never a newline. -/
theorem digitChar_ne_newline (n : Nat) : digitChar n ≠ '\n' := by
  unfold digitChar
  split <;> decide

/-- `natToCharsAux` produces no newline. -/
theorem natToCharsAux_no_newline (fuel n : Nat) : '\n' ∉ natToCharsAux fuel n := by
  induction fuel generalizing n with
  | zero => simp [natToCharsAux]
  | succ f ih =>
    simp only [natToCharsAux]
    split
    · simp [digitChar_ne_newline n]
      intro heq
      exact absurd heq.symm (digitChar_ne_newline n)
    · intro hmem
      rcases List.mem_append.mp hmem with hmem | hmem
      · exact ih (n / 10) hmem
      · rcases List.mem_singleton.mp hmem with heq
        exact absurd heq.symm (digitChar_ne_newline (n % 10))

/-- `natToChars` produces no newline. -/
theorem natToChars_no_newline (n : Nat) : '\n' ∉ natToChars n :=
  natToCharsAux_no_newline (n + 1) n

/-- Dropping preserves the absence of a character. -/
theorem not_mem_drop (c : Char) (l : List Char) (n : Nat) (h : c ∉ l) : c ∉ l.drop n :=
  fun hm => h (List.mem_of_mem_drop hm)

/-- The per-line rewrite rule introduces no newline. -/
theorem lineTransform_no_newline (act : LineAction) (l : List Char) (h : '\n' ∉ l) :
    '\n' ∉ (lineTransform act l).1 := by
  cases act with
  | heading =>
    simp only [lineTransform]
    split
    · exact not_mem_drop _ _ _ h
    · split
      · intro hm
        rcases List.mem_append.mp hm with hm | hm
        · simp at hm
        · exact not_mem_drop _ _ _ h hm
      · split
        · intro hm
          rcases List.mem_append.mp hm with hm | hm
          · simp at hm
          · exact not_mem_drop _ _ _ h hm
        · intro hm
          rcases List.mem_append.mp hm with hm | hm
          · simp at hm
          · exact h hm
  | ul =>
    simp only [lineTransform]
    split
    · exact not_mem_drop _ _ _ h
    · intro hm
      rcases List.mem_append.mp hm with hm | hm
      · simp at hm
      · exact h hm
  | ol =>
    simp only [lineTransform]
    split
    · exact not_mem_drop _ _ _ h
    · intro hm
      rcases List.mem_append.mp hm with hm | hm
      · simp at hm
      · exact h hm
  | blockquote =>
    simp only [lineTransform]
    split
    · exact not_mem_drop _ _ _ h
    · intro hm
      rcases List.mem_append.mp hm with hm | hm
      · simp at hm
      · exact h hm

/-- The renumbering rewrite of a line introduces no newline. -/
theorem renumberLine_no_newline (n : Nat) (l : List Char) (h : '\n' ∉ l) :
    '\n' ∉ renumberLine n l := by
  intro hm
  simp only [renumberLine] at hm
  rcases List.mem_append.mp hm with hm | hm
  · exact natToChars_no_newline n hm
  · rcases List.mem_cons.mp hm with hm | hm
    · simp at hm
    · rcases List.mem_cons.mp hm with hm | hm
      · simp at hm
      · exact not_mem_drop _ _ _ h hm

/-- The per-line rewrite pass preserves the number of lines. -/
theorem length_mapLinesStep2 (act : LineAction) (a b : Nat) :
    ∀ (i : Nat) (L : List (List Char)), (mapLinesStep2 act a b i L).length = L.length := by
  intro i L
  induction L generalizing i with
  | nil => rfl
  | cons l ls ih => simp [mapLinesStep2, ih]

/-- The per-line rewrite pass introduces no newline. -/
theorem mapLinesStep2_no_newline (act : LineAction) (a b : Nat) :
    ∀ (i : Nat) (L : List (List Char)), (∀ l ∈ L, '\n' ∉ l) →
      ∀ l' ∈ mapLinesStep2 act a b i L, '\n' ∉ l' := by
  intro i L
  induction L generalizing i with
  | nil => intro _ l' hm; simp [mapLinesStep2] at hm
  | cons l ls ih =>
    intro hL l' hm
    simp only [mapLinesStep2] at hm
    rcases List.mem_cons.mp hm with hm | hm
    · subst hm
      split
      · exact lineTransform_no_newline act l (hL l (List.mem_cons_self l ls))
      · exact hL l (List.mem_cons_self l ls)
    · exact ih (i + 1) (fun m hmem => hL m (List.mem_cons_of_mem l hmem)) l' hm

/-- The renumbering pass preserves the number of lines. -/
theorem length_renumberLoop (a b : Nat) (wasOl : Bool) :
    ∀ (i n : Nat) (inOl : Bool) (L : List (List Char)),
      (renumberLoop a b wasOl i n inOl L).length = L.length := by
  intro i n inOl L
  induction L generalizing i n inOl with
  | nil => rfl
  | cons l ls ih =>
    simp only [renumberLoop]
    split_ifs <;> simp [ih]

/-- The renumbering pass introduces no newline. -/
theorem renumberLoop_no_newline (a b : Nat) (wasOl : Bool) :
    ∀ (i n : Nat) (inOl : Bool) (L : List (List Char)), (∀ l ∈ L, '\n' ∉ l) →
      ∀ l' ∈ renumberLoop a b wasOl i n inOl L, '\n' ∉ l' := by
  intro i n inOl L
  induction L generalizing i n inOl with
  | nil => intro _ l' hm; simp [renumberLoop] at hm
  | cons l ls ih =>
    intro hL l' hm
    have hl : '\n' ∉ l := hL l (List.mem_cons_self l ls)
    have hls : ∀ m ∈ ls, '\n' ∉ m := fun m hmem => hL m (List.mem_cons_of_mem l hmem)
    simp only [renumberLoop] at hm
    split_ifs at hm <;>
      (rcases List.mem_cons.mp hm with hm | hm
       · subst hm
         first
           | exact renumberLine_no_newline _ l hl
           | exact hl
       · exact ih _ _ _ hls l' hm)

/-- A document rebuilt by joining newline-free lines, as many as the original
document had, has the original's newline count and line count. -/
theorem joinLines_count_of (value : List Char) (M : List (List Char))
    (hlen : M.length = (jsSplit '\n' value).length)
    (hmem : ∀ l ∈ M, '\n' ∉ l) :
    (joinLines '\n' M).count '\n' = value.count '\n' ∧
    (jsSplit '\n' (joinLines '\n' M)).length = (jsSplit '\n' value).length := by
  have h1 : (joinLines '\n' M).count '\n' = value.count '\n' := by
    rw [count_joinLines _ _ hmem, hlen, length_jsSplit]
    omega
  refine ⟨h1, ?_⟩
  rw [length_jsSplit, h1, length_jsSplit]

/-! ### Claim C10 -/

/-- C10: for every document, selection and transform kind, the document
produced by `modifySelectedLines` has exactly the same number of newline
characters — and hence the same number of lines — as the input document. -/
theorem modifySelectedLines_newline_count (value : List Char) (selStart selEnd : Nat)
    (action : LineAction) :
    ((modifySelectedLines value selStart selEnd action).1).count '\n' =
      value.count '\n' ∧
    (jsSplit '\n' (modifySelectedLines value selStart selEnd action).1).length =
      (jsSplit '\n' value).length := by
  have base : ∀ l ∈ jsSplit '\n' value, '\n' ∉ l :=
    fun l hl => not_mem_of_mem_jsSplit '\n' value l hl
  by_cases hact : action = LineAction.ol
  · subst hact
    rw [show (modifySelectedLines value selStart selEnd LineAction.ol).1 =
        joinLines '\n' (renumberLoop (mapSelectionToLines value selStart selEnd).1
          (mapSelectionToLines value selStart selEnd).2
          (selectionLinesWereOl (jsSplit '\n' value)
            (mapSelectionToLines value selStart selEnd).1
            (mapSelectionToLines value selStart selEnd).2) 0 1 false
          (mapLinesStep2 LineAction.ol (mapSelectionToLines value selStart selEnd).1
            (mapSelectionToLines value selStart selEnd).2 0 (jsSplit '\n' value)))
      from rfl]
    exact joinLines_count_of value _
      (by rw [length_renumberLoop, length_mapLinesStep2])
      (renumberLoop_no_newline _ _ _ _ _ _ _
        (mapLinesStep2_no_newline _ _ _ _ _ base))
  · have hdoc : (modifySelectedLines value selStart selEnd action).1 =
        joinLines '\n' (mapLinesStep2 action (mapSelectionToLines value selStart selEnd).1
          (mapSelectionToLines value selStart selEnd).2 0 (jsSplit '\n' value)) := by
      simp only [modifySelectedLines, if_neg hact]
    rw [hdoc]
    exact joinLines_count_of value _ (by rw [length_mapLinesStep2])
      (mapLinesStep2_no_newline _ _ _ _ _ base)

/-! ### Bounds of the selection-to-lines mapping -/

/-- Any line index recorded by the scanning loop stays below the total line
count (offset by the starting index). -/
theorem mapLinesLoop_bound (selStart selEnd : Nat) :
    ∀ (L : List (List Char)) (i cLS : Nat) (p q : Option Nat),
      (∀ k, p = some k → k < i + L.length) →
      (∀ k, q = some k → k < i + L.length) →
      (∀ k, (mapLinesLoop selStart selEnd L i cLS (p, q)).1 = some k →
        k < i + L.length) ∧
      (∀ k, (mapLinesLoop selStart selEnd L i cLS (p, q)).2 = some k →
        k < i + L.length) := by
  intro L
  induction L with
  | nil =>
    intro i cLS p q hp hq
    exact ⟨hp, hq⟩
  | cons l rest ih =>
    intro i cLS p q hp hq
    have upd : ∀ (c : Prop) (inst : Decidable c) (j : Nat) (o : Option Nat),
        j < i + (l :: rest).length →
        (∀ k, o = some k → k < i + (l :: rest).length) →
        ∀ k, (if c then some j else o) = some k → k < i + (l :: rest).length := by
      intro c inst j o hj ho k hk
      split at hk
      · cases hk
        exact hj
      · exact ho k hk
    have hi : i < i + (l :: rest).length := by simp
    have hi1 : i - 1 < i + (l :: rest).length := by
      simp only [List.length_cons]
      omega
    simp only [mapLinesLoop]
    set ps := if selStart ≥ cLS ∧ selStart < cLS + (l.length + 1) then some i else p
      with hps
    set pe1 := if selEnd > cLS ∧ selEnd ≤ cLS + (l.length + 1) then some i else q
      with hpe1
    set pe := if selEnd = cLS ∧ selEnd > 0 then some (i - 1) else pe1 with hpe
    have hbs : ∀ k, ps = some k → k < i + (l :: rest).length := by
      rw [hps]
      exact upd _ inferInstance i p hi hp
    have hbe1 : ∀ k, pe1 = some k → k < i + (l :: rest).length := by
      rw [hpe1]
      exact upd _ inferInstance i q hi hq
    have hbe : ∀ k, pe = some k → k < i + (l :: rest).length := by
      rw [hpe]
      exact upd _ inferInstance (i - 1) pe1 hi1 hbe1
    by_cases hbreak : ps.isSome = true ∧ pe.isSome = true
    · rw [if_pos hbreak]
      exact ⟨hbs, hbe⟩
    · rw [if_neg hbreak]
      have hrec := ih (i + 1) (cLS + (l.length + 1)) ps pe
        (fun k hk => by have := hbs k hk; simp only [List.length_cons] at this ⊢; omega)
        (fun k hk => by have := hbe k hk; simp only [List.length_cons] at this ⊢; omega)
      constructor
      · intro k hk
        have := hrec.1 k hk
        simp only [List.length_cons]
        omega
      · intro k hk
        have := hrec.2 k hk
        simp only [List.length_cons]
        omega

/-- Both line indices returned by the selection-to-lines mapping are valid
indices into the document's lines. -/
theorem mapSelectionToLines_lt (value : List Char) (s e : Nat) :
    (mapSelectionToLines value s e).1 < (jsSplit '\n' value).length ∧
    (mapSelectionToLines value s e).2 < (jsSplit '\n' value).length := by
  have hpos : 0 < (jsSplit '\n' value).length :=
    List.length_pos.mpr (jsSplit_ne_nil '\n' value)
  obtain ⟨hb1, hb2⟩ := mapLinesLoop_bound s e (jsSplit '\n' value) 0 0 none none
    (by simp) (by simp)
  cases hres : mapLinesLoop s e (jsSplit '\n' value) 0 0 (none, none) with
  | mk sIdx eIdx =>
    rw [hres] at hb1 hb2
    simp only at hb1 hb2
    simp only [mapSelectionToLines, hres]
    cases sIdx with
    | some k =>
      cases eIdx with
      | some k' =>
        dsimp only
        exact ⟨by have := hb1 k rfl; omega, by have := hb2 k' rfl; omega⟩
      | none =>
        dsimp only
        refine ⟨by have := hb1 k rfl; omega, ?_⟩
        split
        · omega
        · have := hb1 k rfl
          omega
    | none =>
      cases eIdx with
      | some k' =>
        dsimp only
        refine ⟨?_, by have := hb2 k' rfl; omega⟩
        split
        · omega
        · omega
      | none =>
        dsimp only
        constructor
        · split
          · omega
          · omega
        · split
          · omega
          · split
            · omega
            · omega

/-! ### Claim C2 -/

/-- C2 counterexample: on `"a\nb"` with caret `(2, 2)` and the heading
action, the per-kind rewrite at `startLineIndex` (line `"b"`) has prefix
length change `+2`, so the claimed formula gives
`newStart = max(0, 2 + 2) = 4`; the code returns `2`, because the empty line
range produced by the C1 mapping bug means no line is rewritten and the
recorded delta stays `0`. -/
theorem modifySelectedLines_selection_counterexample :
    (modifySelectedLines ("a\nb".toList) 2 2 LineAction.heading).2.1 = 2 ∧
    max 0 ((2 : Int) +
      (lineTransform LineAction.heading
        ((jsSplit '\n' ("a\nb".toList)).getD
          (mapSelectionToLines ("a\nb".toList) 2 2).1 [])).2) = 4 ∧
    (2 : Int) ≠ 4 := by decide

/-- C2 (amended): for every document, selection and transform kind, the
returned selection is `newStart = max(0, selStart + firstLineDelta)` and
`newEnd = max(newStart, selEnd + Σ (newLength - oldLength))` over the lines
of the mapped range, where the sum compares the lines of the produced
document with the lines of the input, and `firstLineDelta` is the per-kind
prefix length change at `startLineIndex` when the mapped range is non-empty
(`startLineIndex ≤ endLineIndex`) and `0` otherwise (the caret-at-line-start
case of the C1 bug). -/
theorem modifySelectedLines_selection_spec (value : List Char)
    (selStart selEnd : Nat) (action : LineAction) :
    (modifySelectedLines value selStart selEnd action).2.1 =
      max 0 ((selStart : Int) +
        (if (mapSelectionToLines value selStart selEnd).1 ≤
            (mapSelectionToLines value selStart selEnd).2 then
          (lineTransform action ((jsSplit '\n' value).getD
            (mapSelectionToLines value selStart selEnd).1 [])).2
         else 0)) ∧
    (modifySelectedLines value selStart selEnd action).2.2 =
      max (modifySelectedLines value selStart selEnd action).2.1
        ((selEnd : Int) +
          ((List.range' (mapSelectionToLines value selStart selEnd).1
            ((mapSelectionToLines value selStart selEnd).2 + 1 -
              (mapSelectionToLines value selStart selEnd).1)).map fun i =>
              (((jsSplit '\n' (modifySelectedLines value selStart selEnd action).1).getD
                  i []).length : Int) -
              (((jsSplit '\n' value).getD i []).length : Int)).sum) := by
  have hab : (mapSelectionToLines value selStart selEnd).1 <
      (jsSplit '\n' value).length := (mapSelectionToLines_lt value selStart selEnd).1
  set a := (mapSelectionToLines value selStart selEnd).1 with ha
  set b := (mapSelectionToLines value selStart selEnd).2 with hb
  set lines := jsSplit '\n' value with hlines
  set M := (if action = LineAction.ol then
      renumberLoop a b (selectionLinesWereOl lines a b) 0 1 false
        (mapLinesStep2 action a b 0 lines)
    else mapLinesStep2 action a b 0 lines) with hM
  have hMlen : M.length = lines.length := by
    rw [hM]
    by_cases hact : action = LineAction.ol
    · simp only [if_pos hact, length_renumberLoop, length_mapLinesStep2]
    · simp only [if_neg hact, length_mapLinesStep2]
  have hMne : M ≠ [] := by
    intro h0
    rw [h0] at hMlen
    have : lines ≠ [] := jsSplit_ne_nil '\n' value
    cases hcase : lines with
    | nil => exact this hcase
    | cons x xs =>
      rw [hcase] at hMlen
      simp at hMlen
  have hMnl : ∀ l ∈ M, '\n' ∉ l := by
    rw [hM]
    have base : ∀ l ∈ lines, '\n' ∉ l :=
      fun l hl => not_mem_of_mem_jsSplit '\n' value l hl
    by_cases hact : action = LineAction.ol
    · rw [if_pos hact]
      exact renumberLoop_no_newline _ _ _ _ _ _ _
        (mapLinesStep2_no_newline _ _ _ _ _ base)
    · rw [if_neg hact]
      exact mapLinesStep2_no_newline _ _ _ _ _ base
  have hdelta : (if a ≤ b ∧ a < lines.length then
        (lineTransform action (lines.getD a [])).2 else 0) =
      (if a ≤ b then (lineTransform action (lines.getD a [])).2 else 0) := by
    by_cases hcond : a ≤ b
    · rw [if_pos ⟨hcond, hab⟩, if_pos hcond]
    · rw [if_neg (fun hc => hcond hc.1), if_neg hcond]
  have hres : modifySelectedLines value selStart selEnd action =
      (joinLines '\n' M,
       max 0 ((selStart : Int) + (if a ≤ b ∧ a < lines.length then
         (lineTransform action (lines.getD a [])).2 else 0)),
       max (max 0 ((selStart : Int) + (if a ≤ b ∧ a < lines.length then
           (lineTransform action (lines.getD a [])).2 else 0)))
         ((selEnd : Int) + ((List.range' a (b + 1 - a)).map fun i =>
           ((M.getD i []).length : Int) - ((lines.getD i []).length : Int)).sum)) := rfl
  have hsplitM : jsSplit '\n' (joinLines '\n' M) = M :=
    jsSplit_joinLines '\n' M hMne hMnl
  rw [hres]
  dsimp only
  rw [hsplitM, hdelta]
  exact ⟨rfl, rfl⟩

/-! ### Exact characterization of the selection-to-lines mapping -/

/-- `charStart` of an empty index. -/
theorem charStart_zero (L : List (List Char)) : charStart L 0 = 0 := by
  simp [charStart]

/-- `charStart` steps over the head line. -/
theorem charStart_cons_succ (l : List Char) (L : List (List Char)) (k : Nat) :
    charStart (l :: L) (k + 1) = l.length + 1 + charStart L k := by
  simp [charStart, List.take_succ_cons]

/-- Once the start line has been found, the loop scans on and records the end
line `b` (relative to the remaining lines), leaving the start untouched. -/
theorem mapLinesLoop_found_start (selStart selEnd : Nat) :
    ∀ (L : List (List Char)) (i cBase k b : Nat),
      b < L.length →
      selStart < cBase →
      cBase + charStart L b < selEnd →
      selEnd ≤ cBase + charStart L (b + 1) →
      mapLinesLoop selStart selEnd L i cBase (some k, none) =
        (some k, some (i + b)) := by
  intro L
  induction L with
  | nil =>
    intro i cBase k b hb
    simp at hb
  | cons l rest ih =>
    intro i cBase k b hb hstart hend1 hend2
    cases b with
    | zero =>
      rw [charStart_zero] at hend1
      rw [charStart_cons_succ, charStart_zero] at hend2
      have c1 : ¬(selStart ≥ cBase ∧ selStart < cBase + (l.length + 1)) := by omega
      have c2 : selEnd > cBase ∧ selEnd ≤ cBase + (l.length + 1) := ⟨by omega, by omega⟩
      have c3 : ¬(selEnd = cBase ∧ selEnd > 0) := by omega
      simp only [mapLinesLoop, if_neg c1, if_pos c2, if_neg c3]
      rw [if_pos (by simp)]
      simp
    | succ b' =>
      rw [charStart_cons_succ] at hend1
      rw [charStart_cons_succ] at hend2
      have c1 : ¬(selStart ≥ cBase ∧ selStart < cBase + (l.length + 1)) := by omega
      have c2 : ¬(selEnd > cBase ∧ selEnd ≤ cBase + (l.length + 1)) := by omega
      have c3 : ¬(selEnd = cBase ∧ selEnd > 0) := by omega
      simp only [mapLinesLoop, if_neg c1, if_neg c2, if_neg c3]
      rw [if_neg (by simp)]
      rw [ih (i + 1) (cBase + (l.length + 1)) k b' (by simpa using hb) (by omega)
        (by omega) (by omega)]
      simp only [Prod.mk.injEq, Option.some.injEq]
      exact ⟨trivial, by omega⟩

/-- The scanning loop maps a selection whose start lies in line `a`'s span
and whose end lies in line `b`'s half-open span `(lineStart b, lineStart
(b+1)]` to exactly `(a, b)` (relative to the remaining lines). -/
theorem mapLinesLoop_spec (selStart selEnd : Nat) :
    ∀ (L : List (List Char)) (i cBase a b : Nat),
      a ≤ b → b < L.length →
      cBase + charStart L a ≤ selStart →
      selStart < cBase + charStart L (a + 1) →
      cBase + charStart L b < selEnd →
      selEnd ≤ cBase + charStart L (b + 1) →
      mapLinesLoop selStart selEnd L i cBase (none, none) =
        (some (i + a), some (i + b)) := by
  intro L
  induction L with
  | nil =>
    intro i cBase a b _ hb
    simp at hb
  | cons l rest ih =>
    intro i cBase a b hab hb hs1 hs2 he1 he2
    cases a with
    | zero =>
      rw [charStart_zero] at hs1
      rw [charStart_cons_succ, charStart_zero] at hs2
      cases b with
      | zero =>
        rw [charStart_zero] at he1
        rw [charStart_cons_succ, charStart_zero] at he2
        have c1 : selStart ≥ cBase ∧ selStart < cBase + (l.length + 1) :=
          ⟨by omega, by omega⟩
        have c2 : selEnd > cBase ∧ selEnd ≤ cBase + (l.length + 1) := ⟨by omega, by omega⟩
        have c3 : ¬(selEnd = cBase ∧ selEnd > 0) := by omega
        simp only [mapLinesLoop, if_pos c1, if_pos c2, if_neg c3]
        rw [if_pos (by simp)]
        simp
      | succ b' =>
        rw [charStart_cons_succ] at he1
        rw [charStart_cons_succ] at he2
        have c1 : selStart ≥ cBase ∧ selStart < cBase + (l.length + 1) :=
          ⟨by omega, by omega⟩
        have c2 : ¬(selEnd > cBase ∧ selEnd ≤ cBase + (l.length + 1)) := by omega
        have c3 : ¬(selEnd = cBase ∧ selEnd > 0) := by omega
        simp only [mapLinesLoop, if_pos c1, if_neg c2, if_neg c3]
        rw [if_neg (by simp)]
        rw [mapLinesLoop_found_start selStart selEnd rest (i + 1)
          (cBase + (l.length + 1)) i b' (by simpa using hb) (by omega) (by omega)
          (by omega)]
        simp only [Prod.mk.injEq, Option.some.injEq]
        exact ⟨by omega, by omega⟩
    | succ a' =>
      cases b with
      | zero => omega
      | succ b' =>
        rw [charStart_cons_succ] at hs1 hs2 he1 he2
        have c1 : ¬(selStart ≥ cBase ∧ selStart < cBase + (l.length + 1)) := by omega
        have c2 : ¬(selEnd > cBase ∧ selEnd ≤ cBase + (l.length + 1)) := by omega
        have c3 : ¬(selEnd = cBase ∧ selEnd > 0) := by omega
        simp only [mapLinesLoop, if_neg c1, if_neg c2, if_neg c3]
        rw [if_neg (by simp)]
        rw [ih (i + 1) (cBase + (l.length + 1)) a' b' (by omega) (by simpa using hb)
          (by omega) (by omega) (by omega) (by omega)]
        simp only [Prod.mk.injEq, Option.some.injEq]
        exact ⟨by omega, by omega⟩

/-- The selection-to-lines mapping on a document built from newline-free
lines returns exactly the line range whose spans contain the selection's
endpoints. -/
theorem mapSelectionToLines_eq (L : List (List Char)) (a b s e : Nat)
    (hL : ∀ l ∈ L, '\n' ∉ l) (hne : L ≠ [])
    (hab : a ≤ b) (hb : b < L.length)
    (hs1 : charStart L a ≤ s) (hs2 : s < charStart L (a + 1))
    (he1 : charStart L b < e) (he2 : e ≤ charStart L (b + 1)) :
    mapSelectionToLines (joinLines '\n' L) s e = (a, b) := by
  have hsplit : jsSplit '\n' (joinLines '\n' L) = L := jsSplit_joinLines '\n' L hne hL
  have hloop := mapLinesLoop_spec s e L 0 0 a b hab hb (by simpa using hs1)
    (by simpa using hs2) (by simpa using he1) (by simpa using he2)
  simp only [mapSelectionToLines, hsplit, hloop]
  simp

/-! ### Segment behaviour of the per-line rewrite pass -/

/-- The ordered-list rule on a line with no list marker prepends `"1. "`. -/
theorem lineTransform_ol_plain (m : List Char) (h : olMatch m = none) :
    lineTransform LineAction.ol m = ('1' :: '.' :: ' ' :: m, 3) := by
  simp [lineTransform, h]

/-- Lines before the edited range are kept by the rewrite pass. -/
theorem mapLinesStep2_before (act : LineAction) (a b : Nat) :
    ∀ (L1 L2 : List (List Char)) (i : Nat), i + L1.length ≤ a →
      mapLinesStep2 act a b i (L1 ++ L2) =
        L1 ++ mapLinesStep2 act a b (i + L1.length) L2 := by
  intro L1
  induction L1 with
  | nil => intro L2 i _; simp
  | cons l L1' ih =>
    intro L2 i hi
    simp only [List.length_cons] at hi
    have hidx : i + (L1'.length + 1) = i + 1 + L1'.length := by omega
    simp only [List.cons_append, mapLinesStep2, List.append_eq,
      if_neg (show ¬(a ≤ i ∧ i ≤ b) from fun hc => by omega)]
    rw [ih L2 (i + 1) (by omega), List.length_cons, hidx]

/-- Lines inside the edited range are rewritten by the per-line rule. -/
theorem mapLinesStep2_inside (act : LineAction) (a b : Nat) :
    ∀ (L1 L2 : List (List Char)) (i : Nat), a ≤ i → i + L1.length ≤ b + 1 →
      mapLinesStep2 act a b i (L1 ++ L2) =
        L1.map (fun l => (lineTransform act l).1) ++
          mapLinesStep2 act a b (i + L1.length) L2 := by
  intro L1
  induction L1 with
  | nil => intro L2 i _ _; simp
  | cons l L1' ih =>
    intro L2 i ha hi
    simp only [List.length_cons] at hi
    have hidx : i + (L1'.length + 1) = i + 1 + L1'.length := by omega
    simp only [List.cons_append, mapLinesStep2, List.append_eq,
      if_pos (show a ≤ i ∧ i ≤ b from ⟨ha, by omega⟩), List.map_cons]
    rw [ih L2 (i + 1) (by omega) (by omega), List.length_cons, hidx]

/-- Lines after the edited range are kept by the rewrite pass. -/
theorem mapLinesStep2_after (act : LineAction) (a b : Nat) :
    ∀ (L : List (List Char)) (i : Nat), b < i → mapLinesStep2 act a b i L = L := by
  intro L
  induction L with
  | nil => intro i _; rfl
  | cons l ls ih =>
    intro i hi
    simp only [mapLinesStep2, if_neg (show ¬(a ≤ i ∧ i ≤ b) from fun hc => by omega)]
    rw [ih (i + 1) (by omega)]

/-! ### Segment behaviour of the renumbering pass -/

/-- The fresh marker `"1. "` always matches the regex `/^\s*1\.\s+/`. -/
theorem ol1Match_fresh (m : List Char) : ol1Match ('1' :: '.' :: ' ' :: m) = true := by
  simp [ol1Match, List.takeWhile_cons, show isJsWs '1' = false from by decide,
    show isJsWs ' ' = true from by decide]

/-- Rewriting a freshly prefixed line keeps its content. -/
theorem renumberLine_fresh (n : Nat) (m : List Char) :
    renumberLine n ('1' :: '.' :: ' ' :: m) = natToChars n ++ '.' :: ' ' :: m := by
  simp [renumberLine, jsContentStart, List.findIdx?_cons]

/-- Before the edited range, with no active run, the renumbering pass keeps
lines, counter and flag unchanged. -/
theorem renumberLoop_before (a b : Nat) (wasOl : Bool) :
    ∀ (L1 L2 : List (List Char)) (i n : Nat), i + L1.length ≤ a →
      renumberLoop a b wasOl i n false (L1 ++ L2) =
        L1 ++ renumberLoop a b wasOl (i + L1.length) n false L2 := by
  intro L1
  induction L1 with
  | nil => intro L2 i n _; simp
  | cons l L1' ih =>
    intro L2 i n hi
    simp only [List.length_cons] at hi
    have hidx : i + (L1'.length + 1) = i + 1 + L1'.length := by omega
    simp only [List.cons_append, renumberLoop, List.append_eq,
      if_neg (show ¬(a ≤ i ∧ i ≤ b) from fun hc => by omega), Bool.false_and]
    rw [if_neg (by simp)]
    split
    · rw [ih L2 (i + 1) n (by omega), List.length_cons, hidx]
    · rw [ih L2 (i + 1) n (by omega), List.length_cons, hidx]

/-- Single step of the renumbering pass on a freshly converted line inside
the edited range (with `wasOl = false`). -/
theorem renumberLoop_fresh_step (a b i n : Nat) (inOl : Bool) (m : List Char)
    (rest : List (List Char)) (h1 : a ≤ i) (h2 : i ≤ b) :
    renumberLoop a b false i n inOl (('1' :: '.' :: ' ' :: m) :: rest) =
      renumberLine (if inOl then n else 1) ('1' :: '.' :: ' ' :: m) ::
        renumberLoop a b false (i + 1) ((if inOl then n else 1) + 1) true rest := by
  have hnow : (ol1Match ('1' :: '.' :: ' ' :: m) && !false &&
      (decide (a ≤ i) && decide (i ≤ b))) = true := by
    rw [ol1Match_fresh, decide_eq_true h1, decide_eq_true h2]
    rfl
  simp only [renumberLoop, if_pos (⟨h1, h2⟩ : a ≤ i ∧ i ≤ b), hnow, if_true]

/-- The fresh step with an already active run keeps the counter. -/
theorem renumberLoop_fresh_step_true (a b i n : Nat) (m : List Char)
    (rest : List (List Char)) (h1 : a ≤ i) (h2 : i ≤ b) :
    renumberLoop a b false i n true (('1' :: '.' :: ' ' :: m) :: rest) =
      renumberLine n ('1' :: '.' :: ' ' :: m) ::
        renumberLoop a b false (i + 1) (n + 1) true rest := by
  simpa using renumberLoop_fresh_step a b i n true m rest h1 h2

/-- The fresh step with no active run restarts the counter at 1. -/
theorem renumberLoop_fresh_step_false (a b i n : Nat) (m : List Char)
    (rest : List (List Char)) (h1 : a ≤ i) (h2 : i ≤ b) :
    renumberLoop a b false i n false (('1' :: '.' :: ' ' :: m) :: rest) =
      renumberLine 1 ('1' :: '.' :: ' ' :: m) ::
        renumberLoop a b false (i + 1) 2 true rest := by
  simpa using renumberLoop_fresh_step a b i n false m rest h1 h2

/-- Inside the edited range, an active run numbers freshly converted lines
`n, n+1, ...`. -/
theorem renumberLoop_fresh_cont (a b : Nat) :
    ∀ (ms L2 : List (List Char)) (i n : Nat), a ≤ i → i + ms.length ≤ b + 1 →
      renumberLoop a b false i n true
          ((ms.map fun m => '1' :: '.' :: ' ' :: m) ++ L2) =
        numberedFrom n ms ++
          renumberLoop a b false (i + ms.length) (n + ms.length) true L2 := by
  intro ms
  induction ms with
  | nil => intro L2 i n _ _; simp [numberedFrom]
  | cons m ms' ih =>
    intro L2 i n ha hi
    simp only [List.length_cons] at hi
    simp only [List.map_cons, List.cons_append]
    rw [renumberLoop_fresh_step_true a b i n m _ ha (by omega)]
    rw [ih L2 (i + 1) (n + 1) (by omega) (by omega)]
    simp only [numberedFrom, renumberLine_fresh, List.cons_append, List.length_cons]
    rw [show i + 1 + ms'.length = i + (ms'.length + 1) from by omega,
      show n + 1 + ms'.length = n + (ms'.length + 1) from by omega]

/-- A block of freshly converted lines starting with no active run is
numbered `1, 2, ...`, and the counter continues past it. -/
theorem renumberLoop_fresh_start (a b : Nat) (m : List Char)
    (ms L2 : List (List Char)) (i n : Nat) (ha : a ≤ i)
    (hi : i + ms.length + 1 ≤ b + 1) :
    renumberLoop a b false i n false
        (((m :: ms).map fun x => '1' :: '.' :: ' ' :: x) ++ L2) =
      numberedFrom 1 (m :: ms) ++
        renumberLoop a b false (i + ms.length + 1) (ms.length + 2) true L2 := by
  simp only [List.map_cons, List.cons_append]
  rw [renumberLoop_fresh_step_false a b i n m _ ha (by omega)]
  rw [renumberLoop_fresh_cont a b ms L2 (i + 1) 2 (by omega) (by omega)]
  simp only [numberedFrom, renumberLine_fresh, List.cons_append]
  rw [show i + 1 + ms.length = i + ms.length + 1 from by omega,
    show 2 + ms.length = ms.length + 2 from by omega]

/-- After the edited range, an active run renumbers consecutive existing
list items `n, n+1, ...`. -/
theorem renumberLoop_run (a b : Nat) :
    ∀ (rs L2 : List (List Char)) (i n : Nat), b < i →
      (∀ r ∈ rs, (olMatch r).isSome = true) →
      renumberLoop a b false i n true (rs ++ L2) =
        renumberedFrom n rs ++
          renumberLoop a b false (i + rs.length) (n + rs.length) true L2 := by
  intro rs
  induction rs with
  | nil => intro L2 i n _ _; simp [renumberedFrom]
  | cons r rs' ih =>
    intro L2 i n hi hall
    have hr : (olMatch r).isSome = true := hall r (List.mem_cons_self r rs')
    simp only [List.cons_append, renumberLoop, List.append_eq,
      if_neg (show ¬(a ≤ i ∧ i ≤ b) from fun hc => by omega)]
    rw [show (true && (olMatch r).isSome) = true from by rw [Bool.true_and, hr]]
    rw [if_pos rfl]
    rw [ih L2 (i + 1) (n + 1) (by omega)
      (fun x hx => hall x (List.mem_cons_of_mem r hx))]
    simp only [renumberedFrom, List.cons_append, List.length_cons]
    rw [show i + 1 + rs'.length = i + (rs'.length + 1) from by omega,
      show n + 1 + rs'.length = n + (rs'.length + 1) from by omega]

/-- After the edited range, with no active run, the renumbering pass leaves
every line unchanged. -/
theorem renumberLoop_outside_false (a b : Nat) :
    ∀ (L : List (List Char)) (i n : Nat), b < i →
      renumberLoop a b false i n false L = L := by
  intro L
  induction L with
  | nil => intro i n _; rfl
  | cons l ls ih =>
    intro i n hi
    simp only [renumberLoop, if_neg (show ¬(a ≤ i ∧ i ≤ b) from fun hc => by omega),
      Bool.false_and]
    rw [if_neg (by simp)]
    rw [ite_self, ih (i + 1) n (by omega)]

/-- A line with no list marker after the edited range ends the active run
and everything from it on is left unchanged. -/
theorem renumberLoop_post (a b : Nat) (p : List Char) (ps : List (List Char))
    (i n : Nat) (hi : b < i) (hp : olMatch p = none) :
    renumberLoop a b false i n true (p :: ps) = p :: ps := by
  simp only [renumberLoop, if_neg (show ¬(a ≤ i ∧ i ≤ b) from fun hc => by omega), hp,
    Option.isSome_none, Bool.and_false]
  rw [if_neg (by simp), if_neg (by simp)]
  rw [renumberLoop_outside_false a b ps (i + 1) n (by omega)]

/-- If the first line of the selected range was not an ordered-list item,
`selectionLinesWereOl` is false. -/
theorem selectionLinesWereOl_false (lines : List (List Char)) (a b : Nat)
    (hab : a ≤ b) (hm : olMatch (lines.getD a []) = none) :
    selectionLinesWereOl lines a b = false := by
  cases hval : selectionLinesWereOl lines a b with
  | false => rfl
  | true =>
    exfalso
    rw [selectionLinesWereOl, List.all_eq_true] at hval
    have hmem : a ∈ List.range' a (b + 1 - a) := by
      rw [List.mem_range'_1]
      omega
    have := hval a hmem
    rw [hm] at this
    simp at this

/-! ### Claim C5 -/

/-- C5: applying the orderedList transform to a document of three plain
lines (none matching the ordered-list pattern) with a selection spanning all
three lines produces the lines marked `1. `, `2. `, `3. `, each followed by
the original line content. -/
theorem orderedList_three_plain_lines (l1 l2 l3 : List Char) (s e : Nat)
    (h1nl : '\n' ∉ l1) (h2nl : '\n' ∉ l2) (h3nl : '\n' ∉ l3)
    (h1 : olMatch l1 = none) (h2 : olMatch l2 = none) (h3 : olMatch l3 = none)
    (hs : s ≤ l1.length)
    (he1 : l1.length + l2.length + 2 < e)
    (he2 : e ≤ l1.length + l2.length + l3.length + 2) :
    (modifySelectedLines (joinLines '\n' [l1, l2, l3]) s e LineAction.ol).1 =
      joinLines '\n' ['1' :: '.' :: ' ' :: l1, '2' :: '.' :: ' ' :: l2,
        '3' :: '.' :: ' ' :: l3] := by
  have hLnl : ∀ l ∈ [l1, l2, l3], '\n' ∉ l := by
    intro l hl
    simp only [List.mem_cons, List.not_mem_nil, or_false] at hl
    rcases hl with rfl | rfl | rfl <;> assumption
  have hmap : mapSelectionToLines (joinLines '\n' [l1, l2, l3]) s e = (0, 2) := by
    refine mapSelectionToLines_eq [l1, l2, l3] 0 2 s e hLnl (by simp) (by omega)
      (by simp) ?_ ?_ ?_ ?_
    · simp [charStart]
    · simp [charStart]
      omega
    · simp [charStart]
      omega
    · simp [charStart]
      omega
  have hsplit : jsSplit '\n' (joinLines '\n' [l1, l2, l3]) = [l1, l2, l3] :=
    jsSplit_joinLines '\n' [l1, l2, l3] (by simp) hLnl
  have hres : (modifySelectedLines (joinLines '\n' [l1, l2, l3]) s e LineAction.ol).1 =
      joinLines '\n' (renumberLoop
        (mapSelectionToLines (joinLines '\n' [l1, l2, l3]) s e).1
        (mapSelectionToLines (joinLines '\n' [l1, l2, l3]) s e).2
        (selectionLinesWereOl (jsSplit '\n' (joinLines '\n' [l1, l2, l3]))
          (mapSelectionToLines (joinLines '\n' [l1, l2, l3]) s e).1
          (mapSelectionToLines (joinLines '\n' [l1, l2, l3]) s e).2) 0 1 false
        (mapLinesStep2 LineAction.ol
          (mapSelectionToLines (joinLines '\n' [l1, l2, l3]) s e).1
          (mapSelectionToLines (joinLines '\n' [l1, l2, l3]) s e).2 0
          (jsSplit '\n' (joinLines '\n' [l1, l2, l3])))) := rfl
  rw [hres, hmap, hsplit]
  dsimp only
  have hstep2 : mapLinesStep2 LineAction.ol 0 2 0 [l1, l2, l3] =
      (([l1, l2, l3]).map fun x => '1' :: '.' :: ' ' :: x) ++ [] := by
    simp [mapLinesStep2, lineTransform, h1, h2, h3]
  have hwas : selectionLinesWereOl [l1, l2, l3] 0 2 = false :=
    selectionLinesWereOl_false [l1, l2, l3] 0 2 (by omega) (by simpa using h1)
  rw [hstep2, hwas]
  rw [show ([l1, l2, l3] : List (List Char)) = l1 :: [l2, l3] from rfl]
  rw [List.map_cons]
  rw [show (('1' :: '.' :: ' ' :: l1) ::
      ([l2, l3].map fun x => '1' :: '.' :: ' ' :: x)) ++ ([] : List (List Char)) =
      ((l1 :: [l2, l3]).map fun x => '1' :: '.' :: ' ' :: x) ++ [] from by
    simp]
  rw [renumberLoop_fresh_start 0 2 l1 [l2, l3] [] 0 1 (by omega) (by simp)]
  simp [numberedFrom, joinLines, show natToChars 1 = ['1'] from rfl,
    show natToChars 2 = ['2'] from rfl, show natToChars 3 = ['3'] from rfl]

/-- Witness for C5 at the concrete document `"a\nb\nc"` with the selection
`(0, 5)` spanning all three lines. -/
theorem orderedList_three_plain_lines_witness :
    ('\n' ∉ ("a".toList) ∧ '\n' ∉ ("b".toList) ∧ '\n' ∉ ("c".toList) ∧
     olMatch ("a".toList) = none ∧ olMatch ("b".toList) = none ∧
     olMatch ("c".toList) = none ∧
     0 ≤ ("a".toList).length ∧
     ("a".toList).length + ("b".toList).length + 2 < 5 ∧
     5 ≤ ("a".toList).length + ("b".toList).length + ("c".toList).length + 2) ∧
    (modifySelectedLines (joinLines '\n' ["a".toList, "b".toList, "c".toList]) 0 5
        LineAction.ol).1 =
      joinLines '\n' ['1' :: '.' :: ' ' :: "a".toList, '2' :: '.' :: ' ' :: "b".toList,
        '3' :: '.' :: ' ' :: "c".toList] :=
  ⟨⟨by decide, by decide, by decide, by decide, by decide, by decide, by decide,
    by decide, by decide⟩,
   orderedList_three_plain_lines ("a".toList) ("b".toList) ("c".toList) 0 5
     (by decide) (by decide) (by decide) (by decide) (by decide) (by decide)
     (by decide) (by decide) (by decide)⟩

/-! ### Claim C3 -/

/-- C3: applying the orderedList transform to a selection covering plain
lines (`m :: ms`, none previously marked) situated before an existing
numbered run `run` (which ends at the first line with no list marker — the
head of `post`), the pass numbers the edited lines `1, ..., len`, rewrites
the markers of every line of the run contiguously from the edited block
onward (`len+1, len+2, ...`), and leaves everything else unchanged. -/
theorem orderedList_renumber_run_spec (pre : List (List Char)) (m : List Char)
    (ms run post : List (List Char)) (s e : Nat)
    (hprenl : ∀ l ∈ pre, '\n' ∉ l) (hmnl : '\n' ∉ m)
    (hmsnl : ∀ l ∈ ms, '\n' ∉ l) (hrunnl : ∀ l ∈ run, '\n' ∉ l)
    (hpostnl : ∀ l ∈ post, '\n' ∉ l)
    (hm : olMatch m = none) (hms : ∀ l ∈ ms, olMatch l = none)
    (hrun : ∀ l ∈ run, (olMatch l).isSome = true)
    (hpost : olMatch (post.headD []) = none)
    (hs1 : charStart (pre ++ (m :: ms) ++ run ++ post) pre.length ≤ s)
    (hs2 : s < charStart (pre ++ (m :: ms) ++ run ++ post) (pre.length + 1))
    (he1 : charStart (pre ++ (m :: ms) ++ run ++ post) (pre.length + ms.length) < e)
    (he2 : e ≤ charStart (pre ++ (m :: ms) ++ run ++ post)
      (pre.length + ms.length + 1)) :
    (modifySelectedLines (joinLines '\n' (pre ++ (m :: ms) ++ run ++ post)) s e
        LineAction.ol).1 =
      joinLines '\n' (pre ++ numberedFrom 1 (m :: ms) ++
        renumberedFrom (ms.length + 2) run ++ post) := by
  set L := pre ++ (m :: ms) ++ run ++ post with hL
  have hLnl : ∀ l ∈ L, '\n' ∉ l := by
    intro l hl
    rw [hL] at hl
    simp only [List.mem_append, List.mem_cons] at hl
    rcases hl with ((hl | (rfl | hl)) | hl) | hl
    · exact hprenl l hl
    · exact hmnl
    · exact hmsnl l hl
    · exact hrunnl l hl
    · exact hpostnl l hl
  have hLlen : L.length = pre.length + (ms.length + 1) + run.length + post.length := by
    rw [hL]
    simp [List.length_append]
    omega
  have hLne : L ≠ [] := by
    intro h0
    rw [h0] at hLlen
    simp at hLlen
    omega
  have hb : pre.length + ms.length < L.length := by omega
  have hmap : mapSelectionToLines (joinLines '\n' L) s e =
      (pre.length, pre.length + ms.length) :=
    mapSelectionToLines_eq L pre.length (pre.length + ms.length) s e hLnl hLne
      (by omega) hb hs1 hs2 he1 he2
  have hsplit : jsSplit '\n' (joinLines '\n' L) = L :=
    jsSplit_joinLines '\n' L hLne hLnl
  have hres : (modifySelectedLines (joinLines '\n' L) s e LineAction.ol).1 =
      joinLines '\n' (renumberLoop
        (mapSelectionToLines (joinLines '\n' L) s e).1
        (mapSelectionToLines (joinLines '\n' L) s e).2
        (selectionLinesWereOl (jsSplit '\n' (joinLines '\n' L))
          (mapSelectionToLines (joinLines '\n' L) s e).1
          (mapSelectionToLines (joinLines '\n' L) s e).2) 0 1 false
        (mapLinesStep2 LineAction.ol
          (mapSelectionToLines (joinLines '\n' L) s e).1
          (mapSelectionToLines (joinLines '\n' L) s e).2 0
          (jsSplit '\n' (joinLines '\n' L)))) := rfl
  rw [hres, hmap, hsplit]
  dsimp only
  -- re-associate the line list
  have hassoc : L = pre ++ ((m :: ms) ++ (run ++ post)) := by
    rw [hL]
    simp [List.append_assoc]
  -- the first line of the edited range is `m`
  have hgetD : L.getD pre.length [] = m := by
    rw [hassoc]
    rw [List.getD_append_right pre _ _ _ (le_refl pre.length)]
    simp
  have hwas : selectionLinesWereOl L pre.length (pre.length + ms.length) = false :=
    selectionLinesWereOl_false L pre.length (pre.length + ms.length) (by omega)
      (by rw [hgetD]; exact hm)
  -- evaluate the per-line rewrite pass
  have hstep2 : mapLinesStep2 LineAction.ol pre.length (pre.length + ms.length) 0 L =
      pre ++ (((m :: ms).map fun x => '1' :: '.' :: ' ' :: x) ++ (run ++ post)) := by
    rw [hassoc]
    rw [mapLinesStep2_before LineAction.ol pre.length (pre.length + ms.length) pre _ 0
      (by omega)]
    rw [show 0 + pre.length = pre.length from by omega]
    rw [show ((m :: ms) ++ (run ++ post) : List (List Char)) =
      (m :: ms) ++ (run ++ post) from rfl]
    rw [mapLinesStep2_inside LineAction.ol pre.length (pre.length + ms.length)
      (m :: ms) (run ++ post) pre.length (by omega)
      (by simp only [List.length_cons]; omega)]
    rw [mapLinesStep2_after LineAction.ol pre.length (pre.length + ms.length)
      (run ++ post) _ (by simp only [List.length_cons]; omega)]
    congr 1
    congr 1
    exact List.map_congr_left (fun x hx => by
      rcases List.mem_cons.mp hx with rfl | hx
      · rw [lineTransform_ol_plain x hm]
      · rw [lineTransform_ol_plain x (hms x hx)])
  rw [hstep2, hwas]
  -- evaluate the renumbering pass
  rw [renumberLoop_before pre.length (pre.length + ms.length) false pre _ 0 1
    (by omega)]
  rw [show 0 + pre.length = pre.length from by omega]
  rw [renumberLoop_fresh_start pre.length (pre.length + ms.length) m ms (run ++ post)
    pre.length 1 (by omega) (by omega)]
  rw [renumberLoop_run pre.length (pre.length + ms.length) run post
    (pre.length + ms.length + 1) (ms.length + 2) (by omega) hrun]
  have hpostloop : renumberLoop pre.length (pre.length + ms.length) false
      (pre.length + ms.length + 1 + run.length) (ms.length + 2 + run.length) true
      post = post := by
    cases post with
    | nil => rfl
    | cons p ps =>
      have hp : olMatch p = none := by simpa using hpost
      exact renumberLoop_post pre.length (pre.length + ms.length) p ps _ _
        (by omega) hp
  rw [hpostloop]
  congr 1
  simp [List.append_assoc]

/-- Witness for C3 at the concrete document `"1. a\nx\ny\n2. b\nz"`: the
selection `(5, 9)` covers the two plain lines `x` and `y` in the middle of a
numbered context, and the following item `2. b` is renumbered to `4. b`
while the plain tail `z` is untouched. -/
theorem orderedList_renumber_run_spec_witness :
    ((∀ l ∈ [("1. a".toList)], '\n' ∉ l) ∧ '\n' ∉ ("x".toList) ∧
     (∀ l ∈ [("y".toList)], '\n' ∉ l) ∧ (∀ l ∈ [("2. b".toList)], '\n' ∉ l) ∧
     (∀ l ∈ [("z".toList)], '\n' ∉ l) ∧
     olMatch ("x".toList) = none ∧ (∀ l ∈ [("y".toList)], olMatch l = none) ∧
     (∀ l ∈ [("2. b".toList)], (olMatch l).isSome = true) ∧
     olMatch (([("z".toList)]).headD []) = none) ∧
    (modifySelectedLines (joinLines '\n' ([("1. a".toList)] ++
        (("x".toList) :: [("y".toList)]) ++ [("2. b".toList)] ++ [("z".toList)])) 5 9
        LineAction.ol).1 =
      joinLines '\n' ([("1. a".toList)] ++
        numberedFrom 1 (("x".toList) :: [("y".toList)]) ++
        renumberedFrom (([("y".toList)]).length + 2) [("2. b".toList)] ++
        [("z".toList)]) :=
  ⟨⟨by decide, by decide, by decide, by decide, by decide, by decide, by decide,
    by decide, by decide⟩,
   orderedList_renumber_run_spec [("1. a".toList)] ("x".toList) [("y".toList)]
     [("2. b".toList)] [("z".toList)] 5 9 (by decide) (by decide) (by decide)
     (by decide) (by decide) (by decide) (by decide) (by decide) (by decide)
     (by decide) (by decide) (by decide) (by decide)⟩

end MarkdownEditor
